import Mathlib

/-!
Verification of the frame extraction/selection engine and the album download
orchestrator of the bunkr-scraper-and-downloader repository.

The embedding follows the source files:
  * src/helpers/video/frame_extractor.py
      (sample_candidate_timestamps, phash, hamming, FrameCandidate,
       select_diverse_topk, compute_max_frames_by_schedule)
  * src/helpers/downloaders/album_downloader.py
      (AlbumDownloader.process_failed_downloads, AlbumDownloader.download_album)

Python floats are modelled as exact rationals (or reals where logarithms
occur); Python ints as Int/Nat.  Python round() rounds half to even
(pyRound below); int() truncates toward zero (pyInt / pyTrunc below);
list.sort is a stable sort, modelled by insertion sort with the matching
comparison direction.
-/

/-- FrameCandidate mirrors the dataclass in frame_extractor.py (lines 163-170):
timestamp, JPEG bytes (opaque), legacy Laplacian sharpness, composite quality
score, brightness and perceptual hash bit vector. -/
structure FrameCandidate where
  t : ℚ
  jpeg : List Nat
  sharpness : ℚ
  quality_score : ℚ
  brightness : ℚ
  hash : List Bool
deriving DecidableEq

/-- hamming (frame_extractor.py line 159-160): number of positions where the
two bit vectors differ, `np.count_nonzero(a != b)`. -/
def hamming (a b : List Bool) : Nat :=
  (List.zipWith (fun x y => x != y) a b).count true

/-- Brightness band test `bright_min <= c.brightness <= bright_max` used by
every filtering tier of select_diverse_topk (lines 197-207). -/
def brightnessInBand (bright_min bright_max : ℚ) (c : FrameCandidate) : Bool :=
  decide (bright_min ≤ c.brightness) && decide (c.brightness ≤ bright_max)

/-- Tiered candidate filtering of select_diverse_topk (lines 196-211):
brightness-in-band plus full quality threshold, then the threshold relaxed by
50 percent, then brightness only, and as a last resort
`cands[:min(2, len(cands), k)]`.  Each laxer tier is computed only when the
stricter one came out empty. -/
def tieredFilter (cands : List FrameCandidate) (k : Nat)
    (bright_min bright_max min_quality_threshold : ℚ) : List FrameCandidate :=
  let tier1 := cands.filter fun c =>
    brightnessInBand bright_min bright_max c && decide (min_quality_threshold ≤ c.quality_score)
  if tier1 ≠ [] then tier1
  else
    let tier2 := cands.filter fun c =>
      brightnessInBand bright_min bright_max c &&
        decide (min_quality_threshold * (1/2) ≤ c.quality_score)
    if tier2 ≠ [] then tier2
    else
      let tier3 := cands.filter fun c => brightnessInBand bright_min bright_max c
      if tier3 ≠ [] then tier3
      else cands.take (min 2 (min cands.length k))

/-- Comparison used by `quality_filtered.sort(key=lambda c: c.quality_score,
reverse=True)` (line 214): a comes no later than b when b's quality score is
no larger. -/
def qge (a b : FrameCandidate) : Prop := b.quality_score ≤ a.quality_score

instance : DecidableRel qge := fun a b => inferInstanceAs (Decidable (b.quality_score ≤ a.quality_score))

instance : IsTotal FrameCandidate qge := ⟨fun a b => le_total b.quality_score a.quality_score⟩

instance : IsTrans FrameCandidate qge := ⟨fun _ _ _ h1 h2 => le_trans h2 h1⟩

/-- Stable descending sort by composite quality score (line 214).  Python's
list.sort is stable; insertion sort with qge keeps equal-score candidates in
their pre-sort order, matching CPython. -/
def sortByQuality (l : List FrameCandidate) : List FrameCandidate := List.insertionSort qge l

/-- Sum of all pairwise Hamming distances of the sampled frames, mirroring the
double loop of lines 222-227 (`total_distance`). -/
def pairwiseHammingSum : List FrameCandidate → Nat
  | [] => 0
  | c :: cs => (cs.map fun d => hamming c.hash d.hash).sum + pairwiseHammingSum cs

/-- Number of pairs counted by the same double loop (`pairs`). -/
def pairCount : List FrameCandidate → Nat
  | [] => 0
  | _ :: cs => cs.length + pairCount cs

/-- Average pairwise Hamming distance,
`total_distance / pairs if pairs > 0 else 0` (line 229). -/
def avgPairwiseHamming (l : List FrameCandidate) : ℚ :=
  if pairCount l = 0 then 0 else (pairwiseHammingSum l : ℚ) / (pairCount l : ℚ)

/-- Top `min(8, len(quality_filtered))` quality-sorted frames sampled by the
static-video check (lines 219-220). -/
def staticSample (sorted : List FrameCandidate) : List FrameCandidate :=
  sorted.take (min 8 sorted.length)

/-- Static-video detection (lines 217-236): at least 3 surviving candidates
and average pairwise Hamming distance of the sample strictly below
`min_hamm * 0.4`. -/
def isStaticVideo (sorted : List FrameCandidate) (min_hamm : Nat) : Bool :=
  decide (3 ≤ sorted.length) &&
    decide (avgPairwiseHamming (staticSample sorted) < (min_hamm : ℚ) * (2/5))

/-- Diversity test of the greedy loop (lines 251-260): the candidate is
accepted only when its Hamming distance to every already chosen frame is at
least min_hamm. -/
def isDiverse (min_hamm : Nat) (candidate : FrameCandidate) (chosen : List FrameCandidate) : Bool :=
  chosen.all fun chosen_frame => decide (min_hamm ≤ hamming candidate.hash chosen_frame.hash)

/-- Greedy diverse selection loop (lines 246-263): walk the quality-sorted
tail, stop as soon as k frames are chosen, and append a candidate only when
it is diverse from everything chosen so far. -/
def greedyLoop (k min_hamm : Nat) (chosen : List FrameCandidate) : List FrameCandidate → List FrameCandidate
  | [] => chosen
  | candidate :: rest =>
    if k ≤ chosen.length then chosen
    else if isDiverse min_hamm candidate chosen then
      greedyLoop k min_hamm (chosen ++ [candidate]) rest
    else greedyLoop k min_hamm chosen rest

/-- Conservative trim (lines 265-272): with
`diversity_ratio = len(chosen)/k if k > 0 else 0`, when the ratio is below
0.3 and more than 2 frames were chosen, keep only the first
`max(1, len(chosen) // 2)` of them. -/
def conservativeTrim (k : Nat) (chosen : List FrameCandidate) : List FrameCandidate :=
  if (if 0 < k then (chosen.length : ℚ) / (k : ℚ) else 0) < 3/10 ∧ 2 < chosen.length then
    chosen.take (max 1 (chosen.length / 2))
  else chosen

/-- select_diverse_topk (frame_extractor.py lines 173-274): empty input gives
an empty result; otherwise tiered filtering, stable sort by quality,
static-video short cut, greedy diverse selection seeded with the best frame,
and the conservative trim. -/
def select_diverse_topk (cands : List FrameCandidate) (k min_hamm : Nat)
    (bright_min bright_max min_quality_threshold : ℚ) : List FrameCandidate :=
  if cands.isEmpty then []
  else
    let quality_filtered := tieredFilter cands k bright_min bright_max min_quality_threshold
    let sorted := sortByQuality quality_filtered
    if isStaticVideo sorted min_hamm then sorted.take 1
    else conservativeTrim k (greedyLoop k min_hamm (sorted.take 1) (sorted.drop 1))

/-- Chosen list produced by the greedy phase of select_diverse_topk (lines
239-263): the single best-quality frame seeded as the initial selection, then
the quality-sorted tail walked by greedyLoop. -/
def greedyChosen (cands : List FrameCandidate) (k min_hamm : Nat)
    (bmin bmax thr : ℚ) : List FrameCandidate :=
  greedyLoop k min_hamm ((sortByQuality (tieredFilter cands k bmin bmax thr)).take 1)
    ((sortByQuality (tieredFilter cands k bmin bmax thr)).drop 1)

/-- Python `int()` on a rational value: truncation toward zero. -/
def pyInt (x : ℚ) : ℤ := if 0 ≤ x then ⌊x⌋ else -⌊-x⌋

/-- Placeholder probe timestamps `[i for i in range(n_cand)]` used when the
duration is unknown or nonpositive (frame_extractor.py line 43). -/
def pseudoTimestamps (n_cand : ℤ) : List ℚ :=
  (List.range n_cand.toNat).map fun i : ℕ => (i : ℚ)

/-- sample_candidate_timestamps (frame_extractor.py lines 38-50):
`n_cand = int(min(max_candidates, max(target_frames * multiplier,
target_frames)))`; with unknown or nonpositive duration return pseudo
timestamps; with `n_cand <= 1` return the midpoint; otherwise n_cand evenly
spaced timestamps from `0.01 * duration` to `0.99 * duration`. -/
def sample_candidate_timestamps (duration : Option ℚ) (target_frames : ℤ)
    (multiplier : ℚ) (max_candidates : ℤ) : List ℚ :=
  let n_cand : ℤ :=
    pyInt (min (max_candidates : ℚ) (max ((target_frames : ℚ) * multiplier) (target_frames : ℚ)))
  match duration with
  | none => pseudoTimestamps n_cand
  | some d =>
    if d ≤ 0 then pseudoTimestamps n_cand
    else
      if n_cand ≤ 1 then [(1/2 : ℚ) * d]
      else
        (List.range n_cand.toNat).map fun i : ℕ =>
          (1/100 : ℚ) * d + (i : ℚ) * (((99/100 : ℚ) * d - (1/100 : ℚ) * d) / ((n_cand : ℚ) - 1))

/-- npMedian models numpy.median on a list of rationals: sort ascending, take
the middle element for odd length and the mean of the two middle elements for
even length (0 for the empty list, which numpy leaves undefined). -/
def npMedian (l : List ℚ) : ℚ :=
  let s := List.insertionSort (fun a b : ℚ => a ≤ b) l
  if l.length % 2 = 1 then s.getD (l.length / 2) 0
  else (s.getD (l.length / 2 - 1) 0 + s.getD (l.length / 2) 0) / 2

/-- Median used by phash (frame_extractor.py line 154):
`np.median(dctlow[1:, 1:])`, the median of the top-left block with its first
row and first column removed.  The argument dct is the 2-D DCT of the
grayscale image resized to `hash_size * highfreq_factor` (the resize and the
transform are PIL/scipy library calls, represented here by the resulting
coefficient matrix). -/
def phashMedian (dct : Nat → Nat → ℚ) (hash_size : Nat) : ℚ :=
  npMedian (((List.range (hash_size - 1)).map fun i =>
    (List.range (hash_size - 1)).map fun j => dct (i + 1) (j + 1)).flatten)

/-- Bit vector produced by phash (frame_extractor.py lines 144-156):
`ph = dctlow > med` followed by `ph.flatten()` — every coefficient of the
top-left `hash_size × hash_size` block, the DC term included, is compared
against phashMedian, row-major. -/
def phashBits (dct : Nat → Nat → ℚ) (hash_size : Nat) : List Bool :=
  ((List.range hash_size).map fun i =>
    (List.range hash_size).map fun j => decide (phashMedian dct hash_size < dct i j)).flatten

/-- Median named by the specification text: the median of the block's
coefficients with (only) the DC term excluded.  This definition follows the
spec's words, for comparison with the source's phashMedian. -/
def specBlockMedian (dct : Nat → Nat → ℚ) (hash_size : Nat) : ℚ :=
  npMedian ((((List.range hash_size).map fun i =>
    (List.range hash_size).map fun j => dct i j).flatten).drop 1)

/-- FailureRecord mirrors the failure descriptor dict
`{"id": ..., "filename": ..., "download_link": ...}` appended to
AlbumDownloader.failed_downloads (album_downloader.py lines 116-118 and
138-143). -/
structure FailureRecord where
  id : Nat
  filename : String
  download_link : String
deriving DecidableEq

/-- One invocation of the plain-download collaborator
(MediaDownloader.download), recorded with the retry counter it was
constructed with. -/
structure DownloadAttempt where
  filename : String
  download_link : String
  retries : Nat
deriving DecidableEq

/-- One album item after page resolution: the direct link and filename
returned by get_download_info. -/
structure AlbumItem where
  filename : String
  download_link : String
deriving DecidableEq

/-- process_failed_downloads (album_downloader.py lines 136-144): run one
retry download with retry counter 1 for every collected failure record, in
collection order, then unconditionally clear the collection.  Returns the
retry attempts made and the final state of failed_downloads. -/
def process_failed_downloads (failed_downloads : List FailureRecord) :
    List DownloadAttempt × List FailureRecord :=
  (failed_downloads.map fun data => ⟨data.filename, data.download_link, 1⟩, [])

/-- download_album (album_downloader.py lines 146-164), observed at the
synchronization barrier of `asyncio.gather`: every item task performs its
plain download (retry counter 0) during the gather; `collected` is
failed_downloads as it stands after all item tasks completed — the failure
records appended concurrently, in whatever completion order the scheduler
produced; afterwards the retry pass runs only when the collection is
non-empty.  Returns the full ordered attempt trace (all initial attempts,
then all retry attempts) and the final state of failed_downloads. -/
def download_album (items : List AlbumItem) (collected : List FailureRecord) :
    List DownloadAttempt × List FailureRecord :=
  let initial := items.map fun it =>
    ({ filename := it.filename, download_link := it.download_link, retries := 0 } : DownloadAttempt)
  if collected.isEmpty then (initial, collected)
  else
    let retryPass := process_failed_downloads collected
    (initial ++ retryPass.1, retryPass.2)

/-- pyRound models Python 3 round() on a real value: round half to even. -/
noncomputable def pyRound (x : ℝ) : ℤ :=
  if Int.fract x < 1/2 then ⌊x⌋
  else if Int.fract x = 1/2 then (if Even ⌊x⌋ then ⌊x⌋ else ⌊x⌋ + 1)
  else ⌊x⌋ + 1

/-- pyTrunc models Python int() on a real value: truncation toward zero. -/
noncomputable def pyTrunc (x : ℝ) : ℤ := if 0 ≤ x then ⌊x⌋ else -⌊-x⌋

/-- compute_max_frames_by_schedule (frame_extractor.py lines 277-319): a user
cap is returned verbatim; unknown duration gives 15; otherwise a piecewise
linear schedule through (10,3), (30,5), (60,10), (120,15), (300,20), (600,30)
with `int(round(...))` per segment, and beyond 600 seconds
`min(50, 30 + int(10 * log10(1 + (d - 600) / 600)))`. -/
noncomputable def compute_max_frames_by_schedule (duration : Option ℝ) (user_max : Option ℤ) : ℤ :=
  match user_max with
  | some u => u
  | none =>
    match duration with
    | none => 15
    | some d =>
      if d ≤ 10 then 3
      else if d ≤ 30 then pyRound (3 + (d - 10) / 20 * 2)
      else if d ≤ 60 then pyRound (5 + (d - 30) / 30 * 5)
      else if d ≤ 120 then pyRound (10 + (d - 60) / 60 * 5)
      else if d ≤ 300 then pyRound (15 + (d - 120) / 180 * 5)
      else if d ≤ 600 then pyRound (20 + (d - 300) / 300 * 10)
      else min 50 (30 + pyTrunc (10 * Real.logb 10 (1 + (d - 600) / 600)))

/-- schedBase is the pre-rounding value of the schedule on the piecewise
linear region (durations up to 600 seconds); the last linear segment is
continued beyond 600 so that the function is total. -/
noncomputable def schedBase (d : ℝ) : ℝ :=
  if d ≤ 10 then 3
  else if d ≤ 30 then 3 + (d - 10) / 20 * 2
  else if d ≤ 60 then 5 + (d - 30) / 30 * 5
  else if d ≤ 120 then 10 + (d - 60) / 60 * 5
  else if d ≤ 300 then 15 + (d - 120) / 180 * 5
  else 20 + (d - 300) / 300 * 10

theorem hamming_comm (a b : List Bool) : hamming a b = hamming b a := by
  unfold hamming
  induction a generalizing b with
  | nil => cases b <;> rfl
  | cons x xs ih =>
    cases b with
    | nil => rfl
    | cons y ys =>
      simp only [List.zipWith_cons_cons, List.count_cons]
      rw [ih ys]
      congr 1
      cases x <;> cases y <;> rfl

theorem sortByQuality_perm (l : List FrameCandidate) : (sortByQuality l).Perm l :=
  List.perm_insertionSort qge l

theorem sortByQuality_sorted (l : List FrameCandidate) : List.Sorted qge (sortByQuality l) :=
  List.sorted_insertionSort qge l

theorem length_sortByQuality (l : List FrameCandidate) : (sortByQuality l).length = l.length :=
  (sortByQuality_perm l).length_eq

theorem sorted_head_quality_max {l : List FrameCandidate} {b : FrameCandidate}
    (h : List.Sorted qge l) (hb : l.head? = some b) :
    ∀ c ∈ l, c.quality_score ≤ b.quality_score := by
  cases l with
  | nil => simp at hb
  | cons a tl =>
    have hab : a = b := by simpa using hb
    subst hab
    intro c hc
    rcases List.mem_cons.mp hc with rfl | hc
    · exact le_rfl
    · exact (List.pairwise_cons.mp h).1 c hc

theorem greedyLoop_eq_append (k min_hamm : Nat) (chosen rest : List FrameCandidate) :
    ∃ s, greedyLoop k min_hamm chosen rest = chosen ++ s ∧ s.Sublist rest := by
  induction rest generalizing chosen with
  | nil => exact ⟨[], by simp [greedyLoop], List.nil_sublist _⟩
  | cons c cs ih =>
    unfold greedyLoop
    split_ifs with h1 h2
    · exact ⟨[], by simp, List.nil_sublist _⟩
    · obtain ⟨s, hs, hsub⟩ := ih (chosen ++ [c])
      exact ⟨c :: s, by simpa using hs, List.cons_sublist_cons.mpr hsub⟩
    · obtain ⟨s, hs, hsub⟩ := ih chosen
      exact ⟨s, hs, hsub.cons c⟩

theorem greedyLoop_length_le (k min_hamm : Nat) (chosen rest : List FrameCandidate) :
    (greedyLoop k min_hamm chosen rest).length ≤ max chosen.length k := by
  induction rest generalizing chosen with
  | nil => simp [greedyLoop]
  | cons c cs ih =>
    unfold greedyLoop
    split_ifs with h1 h2
    · exact le_max_left _ _
    · have := ih (chosen ++ [c])
      simp only [List.length_append, List.length_cons, List.length_nil] at this
      omega
    · exact ih chosen

theorem greedyLoop_pairwise (k min_hamm : Nat) {chosen : List FrameCandidate}
    (rest : List FrameCandidate)
    (h : List.Pairwise (fun a b => min_hamm ≤ hamming a.hash b.hash) chosen) :
    List.Pairwise (fun a b => min_hamm ≤ hamming a.hash b.hash)
      (greedyLoop k min_hamm chosen rest) := by
  induction rest generalizing chosen with
  | nil => exact h
  | cons c cs ih =>
    unfold greedyLoop
    split_ifs with h1 h2
    · exact h
    · refine ih ?_
      refine List.pairwise_append.mpr ⟨h, List.pairwise_singleton _ _, ?_⟩
      intro a ha b hb
      have hb' : b = c := by simpa using hb
      unfold isDiverse at h2
      have hd := List.all_eq_true.mp h2 a ha
      simp only [decide_eq_true_eq] at hd
      rw [hb', hamming_comm]
      exact hd
    · exact ih h

theorem head?_take_pos {α : Type} (l : List α) {n : Nat} (h : 1 ≤ n) :
    (l.take n).head? = l.head? := by
  cases l with
  | nil => simp
  | cons a tl =>
    obtain ⟨m, rfl⟩ : ∃ m, n = m + 1 := ⟨n - 1, by omega⟩
    simp [List.take_succ_cons]

theorem conservativeTrim_length_le (k : Nat) (l : List FrameCandidate) :
    (conservativeTrim k l).length ≤ l.length := by
  unfold conservativeTrim
  split_ifs <;> first | (simp only [List.length_take]; omega) | omega

theorem conservativeTrim_head? (k : Nat) (l : List FrameCandidate) :
    (conservativeTrim k l).head? = l.head? := by
  unfold conservativeTrim
  split_ifs <;> first | rfl | exact head?_take_pos l (le_max_left _ _)

theorem tieredFilter_nil (k : Nat) (b1 b2 t : ℚ) : tieredFilter [] k b1 b2 t = [] := by
  simp [tieredFilter]

theorem tieredFilter_ne_nil {cands : List FrameCandidate} {k : Nat} {b1 b2 t : ℚ}
    (hc : cands ≠ []) (hk : 1 ≤ k) : tieredFilter cands k b1 b2 t ≠ [] := by
  have hlen : 1 ≤ cands.length := List.length_pos.mpr hc
  simp only [tieredFilter]
  split_ifs with h1 h2 h3
  · exact h1
  · exact h2
  · exact h3
  · rw [← List.length_pos, List.length_take]
    omega

theorem tieredFilter_sublist (cands : List FrameCandidate) (k : Nat) (b1 b2 t : ℚ) :
    (tieredFilter cands k b1 b2 t).Sublist cands := by
  simp only [tieredFilter]
  split_ifs
  · exact List.filter_sublist _
  · exact List.filter_sublist _
  · exact List.filter_sublist _
  · exact List.take_sublist _ _

theorem pyInt_intCast (z : ℤ) : pyInt (z : ℚ) = z := by
  unfold pyInt
  split_ifs with h
  · exact Int.floor_intCast z
  · rw [← Int.cast_neg, Int.floor_intCast]
    omega

theorem pyRound_intCast (z : ℤ) : pyRound (z : ℝ) = z := by
  unfold pyRound
  rw [Int.fract_intCast, Int.floor_intCast]
  norm_num

theorem le_pyRound (x : ℝ) : ⌊x⌋ ≤ pyRound x := by
  unfold pyRound
  split_ifs <;> omega

theorem pyRound_le (x : ℝ) : pyRound x ≤ ⌊x⌋ + 1 := by
  unfold pyRound
  split_ifs <;> omega

theorem pyRound_of_fract_lt {x : ℝ} (h : Int.fract x < 1/2) : pyRound x = ⌊x⌋ := by
  unfold pyRound
  rw [if_pos h]

theorem pyRound_of_fract_gt {x : ℝ} (h : 1/2 < Int.fract x) : pyRound x = ⌊x⌋ + 1 := by
  unfold pyRound
  rw [if_neg (by linarith), if_neg (by intro e; rw [e] at h; linarith)]

theorem pyRound_of_fract_eq_even {x : ℝ} (h : Int.fract x = 1/2) (he : Even ⌊x⌋) :
    pyRound x = ⌊x⌋ := by
  unfold pyRound
  rw [if_neg (by rw [h]; norm_num), if_pos h, if_pos he]

theorem pyRound_of_fract_eq_odd {x : ℝ} (h : Int.fract x = 1/2) (he : ¬ Even ⌊x⌋) :
    pyRound x = ⌊x⌋ + 1 := by
  unfold pyRound
  rw [if_neg (by rw [h]; norm_num), if_pos h, if_neg he]

theorem pyRound_mono {x y : ℝ} (h : x ≤ y) : pyRound x ≤ pyRound y := by
  rcases lt_or_le ⌊x⌋ ⌊y⌋ with hf | hf
  · calc pyRound x ≤ ⌊x⌋ + 1 := pyRound_le x
      _ ≤ ⌊y⌋ := by omega
      _ ≤ pyRound y := le_pyRound y
  · have hfe : ⌊x⌋ = ⌊y⌋ := le_antisymm (Int.floor_le_floor h) hf
    have hfr : Int.fract x ≤ Int.fract y := by
      unfold Int.fract
      rw [hfe]
      linarith
    rcases lt_trichotomy (Int.fract x) (1/2) with hx | hx | hx
    · rw [pyRound_of_fract_lt hx, hfe]
      exact le_pyRound y
    · by_cases he : Even ⌊x⌋
      · rw [pyRound_of_fract_eq_even hx he, hfe]
        exact le_pyRound y
      · rw [pyRound_of_fract_eq_odd hx he]
        rcases eq_or_lt_of_le (hx ▸ hfr) with hy | hy
        · rw [pyRound_of_fract_eq_odd hy.symm (hfe ▸ he)]
          omega
        · rw [pyRound_of_fract_gt hy]
          omega
    · have hy : 1/2 < Int.fract y := lt_of_lt_of_le hx hfr
      rw [pyRound_of_fract_gt hx, pyRound_of_fract_gt hy]
      omega

theorem pyTrunc_of_nonneg {x : ℝ} (h : 0 ≤ x) : pyTrunc x = ⌊x⌋ := if_pos h

theorem pyTrunc_nonneg {x : ℝ} (h : 0 ≤ x) : 0 ≤ pyTrunc x := by
  rw [pyTrunc_of_nonneg h]
  exact Int.le_floor.mpr (by simpa using h)

theorem pyTrunc_mono_nonneg {x y : ℝ} (hx : 0 ≤ x) (h : x ≤ y) : pyTrunc x ≤ pyTrunc y := by
  rw [pyTrunc_of_nonneg hx, pyTrunc_of_nonneg (hx.trans h)]
  exact Int.floor_le_floor h

theorem schedBase_mono : Monotone schedBase := by
  intro a b hab
  unfold schedBase
  split_ifs <;> linarith

theorem schedBase_le_30 {d : ℝ} (h : d ≤ 600) : schedBase d ≤ 30 := by
  unfold schedBase
  split_ifs <;> linarith

theorem sched_eq_pyRound_schedBase {d : ℝ} (h : d ≤ 600) :
    compute_max_frames_by_schedule (some d) none = pyRound (schedBase d) := by
  simp only [compute_max_frames_by_schedule, schedBase]
  split_ifs <;>
    first
      | rfl
      | (rw [show (3:ℝ) = ((3:ℤ) : ℝ) by norm_num, pyRound_intCast])

theorem sortByQuality_ne_nil {l : List FrameCandidate} (h : l ≠ []) : sortByQuality l ≠ [] := by
  rw [← List.length_pos, length_sortByQuality]
  exact List.length_pos.mpr h

theorem select_head?_eq {cands : List FrameCandidate} {k min_hamm : Nat} {bmin bmax thr : ℚ}
    (hc : cands ≠ []) :
    (select_diverse_topk cands k min_hamm bmin bmax thr).head? =
      (sortByQuality (tieredFilter cands k bmin bmax thr)).head? := by
  simp only [select_diverse_topk]
  rw [if_neg (by simpa using hc)]
  split_ifs with hs
  · exact head?_take_pos _ (by norm_num)
  · rw [conservativeTrim_head?]
    obtain ⟨s, hs', hsub⟩ := greedyLoop_eq_append k min_hamm
      ((sortByQuality (tieredFilter cands k bmin bmax thr)).take 1)
      ((sortByQuality (tieredFilter cands k bmin bmax thr)).drop 1)
    rw [hs']
    cases hL : sortByQuality (tieredFilter cands k bmin bmax thr) with
    | nil =>
      rw [hL] at hsub
      simp at hsub
      simp [hsub]
    | cons a tl => simp

theorem sample_known_pos (d : ℚ) (t : ℤ) (m : ℚ) (cap : ℤ) (hd : 0 < d)
    (hn : 2 ≤ pyInt (min (cap : ℚ) (max ((t : ℚ) * m) (t : ℚ)))) :
    sample_candidate_timestamps (some d) t m cap =
      (List.range (pyInt (min (cap : ℚ) (max ((t : ℚ) * m) (t : ℚ)))).toNat).map
        (fun i : ℕ => (1/100 : ℚ) * d + (i : ℚ) *
          (((99/100 : ℚ) * d - (1/100 : ℚ) * d) /
            ((pyInt (min (cap : ℚ) (max ((t : ℚ) * m) (t : ℚ))) : ℚ) - 1))) := by
  simp only [sample_candidate_timestamps]
  rw [if_neg (by linarith), if_neg (by omega)]

theorem sample_known_small (d : ℚ) (t : ℤ) (m : ℚ) (cap : ℤ) (hd : 0 < d)
    (hn : pyInt (min (cap : ℚ) (max ((t : ℚ) * m) (t : ℚ))) ≤ 1) :
    sample_candidate_timestamps (some d) t m cap = [(1/2 : ℚ) * d] := by
  simp only [sample_candidate_timestamps]
  rw [if_neg (by linarith), if_pos hn]

theorem affine_map_range_chain_lt (n : Nat) (a s : ℚ) (hs : 0 < s) :
    ((List.range n).map fun i : ℕ => a + (i : ℚ) * s).Chain' (· < ·) := by
  rw [List.chain'_map]
  cases n with
  | zero => simp
  | succ n =>
    rw [List.chain'_range_succ]
    intro m hm
    have hc : ((m + 1 : Nat) : ℚ) = (m : ℚ) + 1 := by push_cast; ring
    rw [hc]
    nlinarith

theorem flatten_map_range_grid {α : Type} (n h : Nat) (f : Nat → Nat → α) :
    ((List.range n).map fun i => (List.range h).map fun j => f i j).flatten
      = (List.range (n * h)).map fun p => f (p / h) (p % h) := by
  induction n with
  | zero => simp
  | succ n ih =>
    rw [List.range_succ, List.map_append, List.flatten_append, ih]
    have hrw : List.range ((n + 1) * h) = List.range (n * h) ++ (List.range h).map fun i => n * h + i := by
      rw [show (n + 1) * h = n * h + h by ring, List.range_add]
    rw [hrw, List.map_append]
    congr 1
    simp only [List.map_cons, List.map_nil, List.flatten_cons, List.flatten_nil,
      List.append_nil, List.map_map]
    apply List.map_congr_left
    intro j hj
    have hj' : j < h := List.mem_range.mp hj
    have h1 : (n * h + j) / h = n := by
      rcases Nat.eq_zero_or_pos h with rfl | hpos
      · omega
      · rw [Nat.add_comm, Nat.mul_comm, Nat.add_mul_div_left _ _ hpos,
          Nat.div_eq_of_lt hj']
        omega
    have h2 : (n * h + j) % h = j := by
      rcases Nat.eq_zero_or_pos h with rfl | hpos
      · omega
      · rw [Nat.add_comm, Nat.mul_comm, Nat.add_mul_mod_self_left,
          Nat.mod_eq_of_lt hj']
    simp [Function.comp, h1, h2]

theorem phashBits_eq_map (dct : Nat → Nat → ℚ) (hash_size : Nat) :
    phashBits dct hash_size = (List.range (hash_size * hash_size)).map
      (fun p => decide (phashMedian dct hash_size < dct (p / hash_size) (p % hash_size))) := by
  unfold phashBits
  exact flatten_map_range_grid hash_size hash_size _

theorem sched_eq_log {d : ℝ} (h : 600 < d) :
    compute_max_frames_by_schedule (some d) none =
      min 50 (30 + pyTrunc (10 * Real.logb 10 (1 + (d - 600) / 600))) := by
  simp only [compute_max_frames_by_schedule]
  rw [if_neg (by linarith), if_neg (by linarith), if_neg (by linarith),
    if_neg (by linarith), if_neg (by linarith), if_neg (by linarith)]

/-- C2: with no user override the frame-count scheduler satisfies the literal
table schedule(10)=3, schedule(30)=5, schedule(60)=10, schedule(120)=15,
schedule(300)=20, schedule(600)=30; a supplied override is returned verbatim
for every duration (in particular schedule(duration=5, override=7)=7); and
with no override and unknown duration the result is 15. -/
theorem schedule_literal_table :
    compute_max_frames_by_schedule (some 10) none = 3 ∧
    compute_max_frames_by_schedule (some 30) none = 5 ∧
    compute_max_frames_by_schedule (some 60) none = 10 ∧
    compute_max_frames_by_schedule (some 120) none = 15 ∧
    compute_max_frames_by_schedule (some 300) none = 20 ∧
    compute_max_frames_by_schedule (some 600) none = 30 ∧
    (∀ (duration : Option ℝ) (user_max : ℤ),
      compute_max_frames_by_schedule duration (some user_max) = user_max) ∧
    compute_max_frames_by_schedule (some 5) (some 7) = 7 ∧
    compute_max_frames_by_schedule none none = 15 := by
  refine ⟨?_, ?_, ?_, ?_, ?_, ?_, fun duration user_max => rfl, rfl, rfl⟩
  · rw [sched_eq_pyRound_schedBase (by norm_num),
      show schedBase (10:ℝ) = ((3:ℤ):ℝ) from by norm_num [schedBase], pyRound_intCast]
  · rw [sched_eq_pyRound_schedBase (by norm_num),
      show schedBase (30:ℝ) = ((5:ℤ):ℝ) from by norm_num [schedBase], pyRound_intCast]
  · rw [sched_eq_pyRound_schedBase (by norm_num),
      show schedBase (60:ℝ) = ((10:ℤ):ℝ) from by norm_num [schedBase], pyRound_intCast]
  · rw [sched_eq_pyRound_schedBase (by norm_num),
      show schedBase (120:ℝ) = ((15:ℤ):ℝ) from by norm_num [schedBase], pyRound_intCast]
  · rw [sched_eq_pyRound_schedBase (by norm_num),
      show schedBase (300:ℝ) = ((20:ℤ):ℝ) from by norm_num [schedBase], pyRound_intCast]
  · rw [sched_eq_pyRound_schedBase (by norm_num),
      show schedBase (600:ℝ) = ((30:ℤ):ℝ) from by norm_num [schedBase], pyRound_intCast]

/-- C8: with no user override the scheduler is monotone non-decreasing in the
duration, across all segment boundaries and into the logarithmic regime
beyond 600 seconds, where the budget stays capped at 50. -/
theorem schedule_monotone :
    (∀ d1 d2 : ℝ, d1 < d2 →
      compute_max_frames_by_schedule (some d1) none ≤
        compute_max_frames_by_schedule (some d2) none) ∧
    ∀ d : ℝ, 600 < d → compute_max_frames_by_schedule (some d) none ≤ 50 := by
  constructor
  · intro d1 d2 hlt
    rcases le_or_lt d2 600 with h2 | h2
    · rw [sched_eq_pyRound_schedBase (by linarith), sched_eq_pyRound_schedBase h2]
      exact pyRound_mono (schedBase_mono hlt.le)
    · rcases le_or_lt d1 600 with h1 | h1
      · rw [sched_eq_pyRound_schedBase h1, sched_eq_log h2]
        have hle30 : pyRound (schedBase d1) ≤ 30 := by
          have hm := pyRound_mono (schedBase_le_30 h1)
          rwa [show ((30:ℝ)) = ((30:ℤ):ℝ) from by norm_num, pyRound_intCast] at hm
        have harg : (1:ℝ) ≤ 1 + (d2 - 600) / 600 := by
          have : (0:ℝ) ≤ (d2 - 600) / 600 :=
            div_nonneg (by linarith) (by norm_num)
          linarith
        have hlog : 0 ≤ Real.logb 10 (1 + (d2 - 600) / 600) :=
          Real.logb_nonneg (by norm_num) harg
        have ht : 0 ≤ pyTrunc (10 * Real.logb 10 (1 + (d2 - 600) / 600)) :=
          pyTrunc_nonneg (by linarith)
        have h30 : (30:ℤ) ≤ min 50 (30 + pyTrunc (10 * Real.logb 10 (1 + (d2 - 600) / 600))) :=
          le_min (by norm_num) (by omega)
        omega
      · rw [sched_eq_log h1, sched_eq_log h2]
        have harg1 : (1:ℝ) ≤ 1 + (d1 - 600) / 600 := by
          have : (0:ℝ) ≤ (d1 - 600) / 600 :=
            div_nonneg (by linarith) (by norm_num)
          linarith
        have hxy : 1 + (d1 - 600) / 600 ≤ 1 + (d2 - 600) / 600 := by
          have : (d1 - 600) / 600 ≤ (d2 - 600) / 600 :=
            (div_le_div_iff_of_pos_right (by norm_num)).mpr (by linarith)
          linarith
        have hmono : Real.logb 10 (1 + (d1 - 600) / 600) ≤
            Real.logb 10 (1 + (d2 - 600) / 600) :=
          Real.logb_le_logb_of_le (by norm_num) (by linarith) hxy
        have hlog1 : 0 ≤ Real.logb 10 (1 + (d1 - 600) / 600) :=
          Real.logb_nonneg (by norm_num) harg1
        have htr := pyTrunc_mono_nonneg
          (show (0:ℝ) ≤ 10 * Real.logb 10 (1 + (d1 - 600) / 600) by linarith)
          (show 10 * Real.logb 10 (1 + (d1 - 600) / 600) ≤
              10 * Real.logb 10 (1 + (d2 - 600) / 600) by linarith)
        exact min_le_min le_rfl (by omega)
  · intro d hd
    rw [sched_eq_log hd]
    exact min_le_left _ _

/-- Witness for schedule_monotone at the concrete durations 100 less than 200
and 1200 beyond the logarithmic boundary. -/
theorem schedule_monotone_witness :
    ((100:ℝ) < 200 ∧
      compute_max_frames_by_schedule (some 100) none ≤
        compute_max_frames_by_schedule (some 200) none) ∧
    (600 < (1200:ℝ) ∧ compute_max_frames_by_schedule (some 1200) none ≤ 50) :=
  ⟨⟨by norm_num, schedule_monotone.1 100 200 (by norm_num)⟩,
   ⟨by norm_num, schedule_monotone.2 1200 (by norm_num)⟩⟩

/-- C7: for duration 100, target 10, multiplier 3 and cap 200 the sampler
returns exactly min(200, max(30, 10)) = 30 strictly increasing timestamps
with first 1.0 and last 99.0; in general, for known positive duration and
candidate count n = int(min(cap, max(target*multiplier, target))) at least 2,
it returns n evenly spaced timestamps from 0.01*duration to 0.99*duration
inclusive, and the single midpoint 0.5*duration when n is at most 1. -/
theorem sampler_spec :
    ((sample_candidate_timestamps (some 100) 10 3 200).length = 30 ∧
      (sample_candidate_timestamps (some 100) 10 3 200).Chain' (· < ·) ∧
      (sample_candidate_timestamps (some 100) 10 3 200).head? = some 1 ∧
      (sample_candidate_timestamps (some 100) 10 3 200).getLast? = some 99) ∧
    ∀ (d : ℚ) (t : ℤ) (m : ℚ) (cap : ℤ), 0 < d →
      ((2 ≤ pyInt (min (cap : ℚ) (max ((t : ℚ) * m) (t : ℚ))) →
        (sample_candidate_timestamps (some d) t m cap).length =
          (pyInt (min (cap : ℚ) (max ((t : ℚ) * m) (t : ℚ)))).toNat ∧
        (sample_candidate_timestamps (some d) t m cap).Chain' (· < ·) ∧
        (∀ i : ℕ, i < (pyInt (min (cap : ℚ) (max ((t : ℚ) * m) (t : ℚ)))).toNat →
          (sample_candidate_timestamps (some d) t m cap)[i]? =
            some ((1/100 : ℚ) * d + (i : ℚ) *
              (((99/100 : ℚ) * d - (1/100 : ℚ) * d) /
                ((pyInt (min (cap : ℚ) (max ((t : ℚ) * m) (t : ℚ))) : ℚ) - 1)))) ∧
        (sample_candidate_timestamps (some d) t m cap).getLast? =
          some ((99/100 : ℚ) * d)) ∧
      (pyInt (min (cap : ℚ) (max ((t : ℚ) * m) (t : ℚ))) ≤ 1 →
        sample_candidate_timestamps (some d) t m cap = [(1/2 : ℚ) * d])) := by
  have hgen : ∀ (d : ℚ) (t : ℤ) (m : ℚ) (cap : ℤ), 0 < d →
      ((2 ≤ pyInt (min (cap : ℚ) (max ((t : ℚ) * m) (t : ℚ))) →
        (sample_candidate_timestamps (some d) t m cap).length =
          (pyInt (min (cap : ℚ) (max ((t : ℚ) * m) (t : ℚ)))).toNat ∧
        (sample_candidate_timestamps (some d) t m cap).Chain' (· < ·) ∧
        (∀ i : ℕ, i < (pyInt (min (cap : ℚ) (max ((t : ℚ) * m) (t : ℚ)))).toNat →
          (sample_candidate_timestamps (some d) t m cap)[i]? =
            some ((1/100 : ℚ) * d + (i : ℚ) *
              (((99/100 : ℚ) * d - (1/100 : ℚ) * d) /
                ((pyInt (min (cap : ℚ) (max ((t : ℚ) * m) (t : ℚ))) : ℚ) - 1)))) ∧
        (sample_candidate_timestamps (some d) t m cap).getLast? =
          some ((99/100 : ℚ) * d)) ∧
      (pyInt (min (cap : ℚ) (max ((t : ℚ) * m) (t : ℚ))) ≤ 1 →
        sample_candidate_timestamps (some d) t m cap = [(1/2 : ℚ) * d])) := by
    intro d t m cap hd
    constructor
    · intro hn
      have hnq : (2:ℚ) ≤ ((pyInt (min (cap : ℚ) (max ((t : ℚ) * m) (t : ℚ)))) : ℚ) := by
        exact_mod_cast hn
      have hstep : 0 < ((99/100 : ℚ) * d - (1/100 : ℚ) * d) /
          ((pyInt (min (cap : ℚ) (max ((t : ℚ) * m) (t : ℚ))) : ℚ) - 1) :=
        div_pos (by linarith) (by linarith)
      have htn : 1 ≤ (pyInt (min (cap : ℚ) (max ((t : ℚ) * m) (t : ℚ)))).toNat := by omega
      have hcast : (((pyInt (min (cap : ℚ) (max ((t : ℚ) * m) (t : ℚ)))).toNat : ℚ)) =
          ((pyInt (min (cap : ℚ) (max ((t : ℚ) * m) (t : ℚ)))) : ℚ) := by
        rw [show ((pyInt (min (cap : ℚ) (max ((t : ℚ) * m) (t : ℚ)))).toNat : ℚ) =
            (((pyInt (min (cap : ℚ) (max ((t : ℚ) * m) (t : ℚ)))).toNat : ℤ) : ℚ) from by push_cast; ring]
        rw [Int.toNat_of_nonneg (by omega)]
      rw [sample_known_pos d t m cap hd hn]
      refine ⟨by simp, affine_map_range_chain_lt _ _ _ hstep, ?_, ?_⟩
      · intro i hi
        rw [List.getElem?_map, List.getElem?_range hi]
        rfl
      · rw [List.getLast?_eq_getElem?]
        simp only [List.length_map, List.length_range]
        rw [List.getElem?_map, List.getElem?_range (by omega)]
        have hc1 : (((pyInt (min (cap : ℚ) (max ((t : ℚ) * m) (t : ℚ)))).toNat - 1 : ℕ) : ℚ) =
            ((pyInt (min (cap : ℚ) (max ((t : ℚ) * m) (t : ℚ)))) : ℚ) - 1 := by
          rw [Nat.cast_sub htn, hcast]
          norm_num
        simp only [Option.map_some']
        rw [hc1]
        congr 1
        have hne : ((pyInt (min (cap : ℚ) (max ((t : ℚ) * m) (t : ℚ)))) : ℚ) - 1 ≠ 0 :=
          ne_of_gt (by linarith)
        field_simp
        ring
    · intro hn
      exact sample_known_small d t m cap hd hn
  refine ⟨?_, hgen⟩
  have h100 := hgen 100 10 3 200 (by norm_num)
  have hn30 : pyInt (min ((200:ℤ) : ℚ) (max (((10:ℤ) : ℚ) * 3) ((10:ℤ) : ℚ))) = 30 := by
    rw [show (min ((200:ℤ):ℚ) (max (((10:ℤ):ℚ) * 3) ((10:ℤ):ℚ))) = ((30:ℤ):ℚ) from by
      push_cast; norm_num, pyInt_intCast]
  have hmain := h100.1 (by rw [hn30]; norm_num)
  obtain ⟨hlen, hchain, hidx, hlast⟩ := hmain
  refine ⟨by rw [hlen, hn30]; rfl, hchain, ?_, by rw [hlast]; norm_num⟩
  have h0 := hidx 0 (by rw [hn30]; norm_num)
  rw [List.head?_eq_getElem?, h0]
  norm_num

/-- Witness instantiating the quantified part of sampler_spec at duration 50,
target 1, multiplier 1, cap 100, where n = 1 and the midpoint is returned. -/
theorem sampler_spec_witness :
    (0 < (50:ℚ)) ∧
    pyInt (min ((100:ℤ) : ℚ) (max (((1:ℤ) : ℚ) * 1) ((1:ℤ) : ℚ))) ≤ 1 ∧
    sample_candidate_timestamps (some 50) 1 1 100 = [(1/2 : ℚ) * 50] := by
  have hn : pyInt (min ((100:ℤ) : ℚ) (max (((1:ℤ) : ℚ) * 1) ((1:ℤ) : ℚ))) ≤ 1 := by
    rw [show (min ((100:ℤ):ℚ) (max (((1:ℤ):ℚ) * 1) ((1:ℤ):ℚ))) = ((1:ℤ):ℚ) from by
      push_cast; norm_num, pyInt_intCast]
  exact ⟨by norm_num, hn, (sampler_spec.2 50 1 1 100 (by norm_num)).2 hn⟩

/-- C3: for an album of m item pages of which w < m plain downloads fail
(each failure appending one FailureRecord, in any concurrent completion
order), exactly w retry attempts are made, each with retry counter 1, and
they all come after the m initial attempts; afterwards the failure
collection is empty regardless of retry outcome. -/
theorem album_retry_pass (items : List AlbumItem)
    (outcome : AlbumItem → Option FailureRecord) (collected : List FailureRecord)
    (hperm : collected.Perm (items.filterMap outcome))
    (hw : (items.filterMap outcome).length < items.length) :
    (download_album items collected).1.take items.length =
      items.map (fun it =>
        ({ filename := it.filename, download_link := it.download_link,
           retries := 0 } : DownloadAttempt)) ∧
    ((download_album items collected).1.drop items.length).length =
      (items.filterMap outcome).length ∧
    (∀ a ∈ (download_album items collected).1.drop items.length, a.retries = 1) ∧
    (download_album items collected).2 = [] := by
  have hlen : (items.map (fun it =>
      ({ filename := it.filename, download_link := it.download_link,
         retries := 0 } : DownloadAttempt))).length = items.length := by simp
  by_cases hc : collected = []
  · subst hc
    have hfm : items.filterMap outcome = [] := hperm.nil_eq.symm
    refine ⟨?_, ?_, ?_, ?_⟩
    · simp only [download_album, List.isEmpty_nil, if_true]
      rw [← hlen, List.take_length]
    · simp only [download_album, List.isEmpty_nil, if_true]
      rw [← hlen, List.drop_length, hfm]
      rfl
    · simp only [download_album, List.isEmpty_nil, if_true]
      rw [← hlen, List.drop_length]
      intro a ha
      simp at ha
    · simp [download_album]
  · have hne : ¬ (collected.isEmpty = true) := by
      simp only [List.isEmpty_iff]
      exact hc
    refine ⟨?_, ?_, ?_, ?_⟩
    · simp only [download_album]
      rw [if_neg hne]
      simp only [process_failed_downloads]
      rw [← hlen, List.take_left]
    · simp only [download_album]
      rw [if_neg hne]
      simp only [process_failed_downloads]
      rw [← hlen, List.drop_left, List.length_map, hperm.length_eq]
    · simp only [download_album]
      rw [if_neg hne]
      simp only [process_failed_downloads]
      rw [← hlen, List.drop_left]
      intro a ha
      obtain ⟨f, hf, rfl⟩ := List.mem_map.mp ha
      rfl
    · simp only [download_album]
      rw [if_neg hne]
      rfl

/-- Witness for album_retry_pass on a two-item album whose first plain
download fails and second succeeds. -/
theorem album_retry_pass_witness :
    ([({ id := 0, filename := "a", download_link := "la" } : FailureRecord)].Perm
      (([({ filename := "a", download_link := "la" } : AlbumItem),
         ({ filename := "b", download_link := "lb" } : AlbumItem)]).filterMap
        (fun it => if it.filename = "a" then
          some ({ id := 0, filename := "a", download_link := "la" } : FailureRecord)
          else none))) ∧
    (([({ filename := "a", download_link := "la" } : AlbumItem),
       ({ filename := "b", download_link := "lb" } : AlbumItem)]).filterMap
        (fun it => if it.filename = "a" then
          some ({ id := 0, filename := "a", download_link := "la" } : FailureRecord)
          else none)).length <
      [({ filename := "a", download_link := "la" } : AlbumItem),
       ({ filename := "b", download_link := "lb" } : AlbumItem)].length ∧
    (download_album
      [({ filename := "a", download_link := "la" } : AlbumItem),
       ({ filename := "b", download_link := "lb" } : AlbumItem)]
      [({ id := 0, filename := "a", download_link := "la" } : FailureRecord)]).2 = [] := by
  have heval : (([({ filename := "a", download_link := "la" } : AlbumItem),
       ({ filename := "b", download_link := "lb" } : AlbumItem)]).filterMap
        (fun it => if it.filename = "a" then
          some ({ id := 0, filename := "a", download_link := "la" } : FailureRecord)
          else none)) =
      [({ id := 0, filename := "a", download_link := "la" } : FailureRecord)] := by
    simp
  have hperm : ([({ id := 0, filename := "a", download_link := "la" } : FailureRecord)]).Perm
      (([({ filename := "a", download_link := "la" } : AlbumItem),
         ({ filename := "b", download_link := "lb" } : AlbumItem)]).filterMap
        (fun it => if it.filename = "a" then
          some ({ id := 0, filename := "a", download_link := "la" } : FailureRecord)
          else none)) := by
    rw [heval]
  have hw : (([({ filename := "a", download_link := "la" } : AlbumItem),
       ({ filename := "b", download_link := "lb" } : AlbumItem)]).filterMap
        (fun it => if it.filename = "a" then
          some ({ id := 0, filename := "a", download_link := "la" } : FailureRecord)
          else none)).length <
      [({ filename := "a", download_link := "la" } : AlbumItem),
       ({ filename := "b", download_link := "lb" } : AlbumItem)].length := by
    rw [heval]
    norm_num
  exact ⟨hperm, hw, (album_retry_pass _ _ _ hperm hw).2.2.2⟩

/-- C9 counterexample: the claim that phash thresholds every coefficient
except the DC term against the block's median (with the DC term excluded
from that median) is false on the code: the source computes the median of
the block minus its whole first row and first column, and for the DCT block
[[1,0],[2,4]] with hash_size 2 the coefficient at position (1,1) is 4, above
the claimed median 2, yet its bit in phashBits is false (the source compares
against np.median(dctlow[1:, 1:]) = 4). -/
theorem phash_median_cex :
    ¬ (∀ (dct : Nat → Nat → ℚ) (h i j : Nat), i < h → j < h → ¬(i = 0 ∧ j = 0) →
        (phashBits dct h)[i * h + j]? =
          some (decide (specBlockMedian dct h < dct i j))) := by
  intro hcl
  have hinst := hcl
    (fun i j => if i = 0 then (if j = 0 then (1:ℚ) else 0) else (if j = 0 then 2 else 4))
    2 1 1 (by norm_num) (by norm_num) (by norm_num)
  rw [phashBits_eq_map] at hinst
  norm_num [phashMedian, specBlockMedian, npMedian, List.insertionSort,
    List.orderedInsert, List.range_succ] at hinst

/-- C9 (amended): phash takes the top-left hash_size by hash_size
low-frequency block of the DCT of the resized grayscale image, computes the
median of that block with its first row and first column removed, and
thresholds every coefficient of the block — the DC term included — against
that median, producing a bit vector of fixed length hash_size squared,
row-major. -/
theorem phashBits_spec (dct : Nat → Nat → ℚ) (hash_size : Nat) :
    (phashBits dct hash_size).length = hash_size * hash_size ∧
    ∀ i j : Nat, i < hash_size → j < hash_size →
      (phashBits dct hash_size)[i * hash_size + j]? =
        some (decide (phashMedian dct hash_size < dct i j)) := by
  rw [phashBits_eq_map]
  constructor
  · simp
  · intro i j hi hj
    have hpos : 0 < hash_size := by omega
    have h1 : i * hash_size + j < (i + 1) * hash_size := by
      rw [Nat.succ_mul]
      omega
    have h2 : (i + 1) * hash_size ≤ hash_size * hash_size :=
      Nat.mul_le_mul_right _ (by omega)
    have hlt : i * hash_size + j < hash_size * hash_size := by omega
    rw [List.getElem?_map, List.getElem?_range hlt]
    simp only [Option.map_some']
    have hdiv : (i * hash_size + j) / hash_size = i := by
      rw [Nat.add_comm, Nat.mul_comm, Nat.add_mul_div_left _ _ hpos,
        Nat.div_eq_of_lt hj]
      omega
    have hmod : (i * hash_size + j) % hash_size = j := by
      rw [Nat.add_comm, Nat.mul_comm, Nat.add_mul_mod_self_left,
        Nat.mod_eq_of_lt hj]
    rw [hdiv, hmod]

/-- Witness for phashBits_spec at the DCT matrix (i, j) maps to i + j with
hash_size 2, at the DC position (0, 0). -/
theorem phashBits_spec_witness :
    ((0:Nat) < 2 ∧ (0:Nat) < 2) ∧
    (phashBits (fun i j => ((i + j : Nat) : ℚ)) 2)[0 * 2 + 0]? =
      some (decide (phashMedian (fun i j => ((i + j : Nat) : ℚ)) 2 <
        ((0 + 0 : Nat) : ℚ))) :=
  ⟨⟨by norm_num, by norm_num⟩,
   (phashBits_spec (fun i j => ((i + j : Nat) : ℚ)) 2).2 0 0 (by norm_num) (by norm_num)⟩

theorem greedyLoop_seeded_head? (k mh : Nat) (L : List FrameCandidate) :
    (greedyLoop k mh (L.take 1) (L.drop 1)).head? = L.head? := by
  obtain ⟨s, hgs, hsub⟩ := greedyLoop_eq_append k mh (L.take 1) (L.drop 1)
  rw [hgs]
  cases L with
  | nil =>
    simp only [List.take_nil, List.drop_nil] at *
    have hs : s = [] := List.sublist_nil.mp hsub
    simp [hs]
  | cons a tl => simp

theorem greedyLoop_seeded_pairwise (k mh : Nat) (L : List FrameCandidate) :
    List.Pairwise (fun a b => mh ≤ hamming a.hash b.hash)
      (greedyLoop k mh (L.take 1) (L.drop 1)) := by
  apply greedyLoop_pairwise
  cases L with
  | nil => simp
  | cons a tl => simp

theorem greedyLoop_seeded_length (k mh : Nat) (L : List FrameCandidate) :
    (greedyLoop k mh (L.take 1) (L.drop 1)).length ≤ max 1 k := by
  have hg := greedyLoop_length_le k mh (L.take 1) (L.drop 1)
  have h1 : (L.take 1).length ≤ 1 := by simp [List.length_take]
  omega

theorem greedyLoop_seeded_sublist (k mh : Nat) (L : List FrameCandidate) :
    (greedyLoop k mh (L.take 1) (L.drop 1)).Sublist L := by
  obtain ⟨s, hgs, hsub⟩ := greedyLoop_eq_append k mh (L.take 1) (L.drop 1)
  rw [hgs]
  have h2 := (List.append_sublist_append_left (L.take 1)).mpr hsub
  rwa [List.take_append_drop] at h2

/-- C1 (amended): select_diverse_topk returns at most k candidates for every
maximum count k of at least 1, every minimum Hamming distance, every
brightness band and every quality threshold; and for the empty candidate
list it returns the empty result for every k.  The bound fails at k = 0,
where a nonempty candidate list still yields one frame (see
select_topk_k_zero_violation). -/
theorem select_topk_bound :
    (∀ (cands : List FrameCandidate) (k min_hamm : Nat) (bmin bmax thr : ℚ),
      1 ≤ k → (select_diverse_topk cands k min_hamm bmin bmax thr).length ≤ k) ∧
    ∀ (k min_hamm : Nat) (bmin bmax thr : ℚ),
      select_diverse_topk [] k min_hamm bmin bmax thr = [] := by
  constructor
  · intro cands k min_hamm bmin bmax thr hk
    simp only [select_diverse_topk]
    split_ifs with h1 h2
    · simp
    · have ht : ((sortByQuality (tieredFilter cands k bmin bmax thr)).take 1).length ≤ 1 := by
        simp [List.length_take]
      omega
    · have ht := conservativeTrim_length_le k (greedyLoop k min_hamm
        ((sortByQuality (tieredFilter cands k bmin bmax thr)).take 1)
        ((sortByQuality (tieredFilter cands k bmin bmax thr)).drop 1))
      have hg := greedyLoop_seeded_length k min_hamm
        (sortByQuality (tieredFilter cands k bmin bmax thr))
      omega
  · intro k min_hamm bmin bmax thr
    simp [select_diverse_topk]

/-- C1 counterexample: with k = 0 and one bright, sharp candidate the
selector still returns that candidate, so its result length exceeds k; the
claim as stated over every maximum count k is false on the code. -/
theorem select_topk_k_zero_violation :
    ¬ ((select_diverse_topk
        [({ t := 0, jpeg := [], sharpness := 0, quality_score := 1,
            brightness := 1/2, hash := [true] } : FrameCandidate)]
        0 12 0 1 (3/10)).length ≤ 0) := by
  norm_num [select_diverse_topk, tieredFilter, brightnessInBand, sortByQuality,
    List.insertionSort, List.orderedInsert, qge, isStaticVideo, staticSample,
    avgPairwiseHamming, pairCount, pairwiseHammingSum, greedyLoop,
    conservativeTrim, isDiverse, hamming]

/-- Witness for select_topk_bound at a single candidate with k = 1. -/
theorem select_topk_bound_witness :
    1 ≤ 1 ∧ (select_diverse_topk
      [({ t := 0, jpeg := [], sharpness := 0, quality_score := 1,
          brightness := 1/2, hash := [false] } : FrameCandidate)]
      1 12 0 1 (3/10)).length ≤ 1 :=
  ⟨by norm_num, select_topk_bound.1
    [({ t := 0, jpeg := [], sharpness := 0, quality_score := 1,
        brightness := 1/2, hash := [false] } : FrameCandidate)]
    1 12 0 1 (3/10) (by norm_num)⟩

/-- C5: select_diverse_topk filters candidates in four tiers and stops at the
first non-empty one: (a) brightness within the band and quality at least the
threshold; (b) brightness in band and quality at least half the threshold;
(c) brightness in band only; (d) no filter, capped at min(2, k) candidates
taken in original input order; a laxer tier is used only when every stricter
tier is empty, and every tier's output is a subsequence of the input. -/
theorem tiered_filter_spec (cands : List FrameCandidate) (k : Nat) (bmin bmax thr : ℚ) :
    tieredFilter cands k bmin bmax thr =
      (if (cands.filter fun c =>
            brightnessInBand bmin bmax c && decide (thr ≤ c.quality_score)) ≠ [] then
        cands.filter fun c => brightnessInBand bmin bmax c && decide (thr ≤ c.quality_score)
      else if (cands.filter fun c =>
            brightnessInBand bmin bmax c && decide (thr * (1/2) ≤ c.quality_score)) ≠ [] then
        cands.filter fun c =>
          brightnessInBand bmin bmax c && decide (thr * (1/2) ≤ c.quality_score)
      else if (cands.filter fun c => brightnessInBand bmin bmax c) ≠ [] then
        cands.filter fun c => brightnessInBand bmin bmax c
      else cands.take (min 2 (min cands.length k))) ∧
    (cands.take (min 2 (min cands.length k))).length ≤ min 2 k ∧
    (tieredFilter cands k bmin bmax thr).Sublist cands := by
  refine ⟨rfl, ?_, tieredFilter_sublist cands k bmin bmax thr⟩
  simp only [List.length_take]
  omega

/-- C4: whenever at least 3 candidates survive the tiered filtering and the
average pairwise Hamming distance over the top min(8, count) quality-sorted
candidates is strictly below 0.4 times min_hamm, select_diverse_topk returns
exactly the single best-quality filtered candidate, skipping the greedy
selection and the trim. -/
theorem static_video_single_best (cands : List FrameCandidate) (k min_hamm : Nat)
    (bmin bmax thr : ℚ)
    (h3 : 3 ≤ (tieredFilter cands k bmin bmax thr).length)
    (havg : avgPairwiseHamming
        (staticSample (sortByQuality (tieredFilter cands k bmin bmax thr))) <
      (min_hamm : ℚ) * (2/5)) :
    ∃ b, select_diverse_topk cands k min_hamm bmin bmax thr = [b] ∧
      b ∈ tieredFilter cands k bmin bmax thr ∧
      ∀ c ∈ tieredFilter cands k bmin bmax thr, c.quality_score ≤ b.quality_score := by
  have hcne : cands ≠ [] := by
    intro h
    rw [h, tieredFilter_nil] at h3
    simp at h3
  have hlen : 3 ≤ (sortByQuality (tieredFilter cands k bmin bmax thr)).length := by
    rw [length_sortByQuality]
    exact h3
  have hstatic : isStaticVideo (sortByQuality (tieredFilter cands k bmin bmax thr))
      min_hamm = true := by
    simp only [isStaticVideo, Bool.and_eq_true, decide_eq_true_eq]
    exact ⟨hlen, havg⟩
  have hsel : select_diverse_topk cands k min_hamm bmin bmax thr =
      (sortByQuality (tieredFilter cands k bmin bmax thr)).take 1 := by
    simp only [select_diverse_topk]
    rw [if_neg (by simpa using hcne), if_pos hstatic]
  cases hL : sortByQuality (tieredFilter cands k bmin bmax thr) with
  | nil =>
    rw [hL] at hlen
    simp at hlen
  | cons b tl =>
    refine ⟨b, ?_, ?_, ?_⟩
    · rw [hsel, hL]
      rfl
    · have hmem : b ∈ sortByQuality (tieredFilter cands k bmin bmax thr) := by
        rw [hL]
        exact List.mem_cons_self _ _
      exact (sortByQuality_perm _).mem_iff.mp hmem
    · intro c hc
      have hcs : c ∈ sortByQuality (tieredFilter cands k bmin bmax thr) :=
        (sortByQuality_perm _).mem_iff.mpr hc
      have hhb : (sortByQuality (tieredFilter cands k bmin bmax thr)).head? = some b := by
        rw [hL]
        rfl
      exact sorted_head_quality_max (sortByQuality_sorted _) hhb c hcs

/-- Witness for static_video_single_best: three equally bright, equally sharp
candidates with identical hashes form a static video and collapse to one
frame. -/
theorem static_video_single_best_witness :
    3 ≤ (tieredFilter
      [({ t := 0, jpeg := [], sharpness := 0, quality_score := 1,
          brightness := 1/2, hash := [true, false] } : FrameCandidate),
       ({ t := 1, jpeg := [], sharpness := 0, quality_score := 1,
          brightness := 1/2, hash := [true, false] } : FrameCandidate),
       ({ t := 2, jpeg := [], sharpness := 0, quality_score := 1,
          brightness := 1/2, hash := [true, false] } : FrameCandidate)]
      3 0 1 (3/10)).length ∧
    avgPairwiseHamming (staticSample (sortByQuality (tieredFilter
      [({ t := 0, jpeg := [], sharpness := 0, quality_score := 1,
          brightness := 1/2, hash := [true, false] } : FrameCandidate),
       ({ t := 1, jpeg := [], sharpness := 0, quality_score := 1,
          brightness := 1/2, hash := [true, false] } : FrameCandidate),
       ({ t := 2, jpeg := [], sharpness := 0, quality_score := 1,
          brightness := 1/2, hash := [true, false] } : FrameCandidate)]
      3 0 1 (3/10)))) < ((12 : Nat) : ℚ) * (2/5) ∧
    ∃ b, select_diverse_topk
      [({ t := 0, jpeg := [], sharpness := 0, quality_score := 1,
          brightness := 1/2, hash := [true, false] } : FrameCandidate),
       ({ t := 1, jpeg := [], sharpness := 0, quality_score := 1,
          brightness := 1/2, hash := [true, false] } : FrameCandidate),
       ({ t := 2, jpeg := [], sharpness := 0, quality_score := 1,
          brightness := 1/2, hash := [true, false] } : FrameCandidate)]
      3 12 0 1 (3/10) = [b] ∧
      b ∈ tieredFilter
        [({ t := 0, jpeg := [], sharpness := 0, quality_score := 1,
            brightness := 1/2, hash := [true, false] } : FrameCandidate),
         ({ t := 1, jpeg := [], sharpness := 0, quality_score := 1,
            brightness := 1/2, hash := [true, false] } : FrameCandidate),
         ({ t := 2, jpeg := [], sharpness := 0, quality_score := 1,
            brightness := 1/2, hash := [true, false] } : FrameCandidate)]
        3 0 1 (3/10) ∧
      ∀ c ∈ tieredFilter
        [({ t := 0, jpeg := [], sharpness := 0, quality_score := 1,
            brightness := 1/2, hash := [true, false] } : FrameCandidate),
         ({ t := 1, jpeg := [], sharpness := 0, quality_score := 1,
            brightness := 1/2, hash := [true, false] } : FrameCandidate),
         ({ t := 2, jpeg := [], sharpness := 0, quality_score := 1,
            brightness := 1/2, hash := [true, false] } : FrameCandidate)]
        3 0 1 (3/10), c.quality_score ≤ b.quality_score := by
  have h3 : 3 ≤ (tieredFilter
      [({ t := 0, jpeg := [], sharpness := 0, quality_score := 1,
          brightness := 1/2, hash := [true, false] } : FrameCandidate),
       ({ t := 1, jpeg := [], sharpness := 0, quality_score := 1,
          brightness := 1/2, hash := [true, false] } : FrameCandidate),
       ({ t := 2, jpeg := [], sharpness := 0, quality_score := 1,
          brightness := 1/2, hash := [true, false] } : FrameCandidate)]
      3 0 1 (3/10)).length := by
    norm_num +decide [tieredFilter, brightnessInBand]
  have havg : avgPairwiseHamming (staticSample (sortByQuality (tieredFilter
      [({ t := 0, jpeg := [], sharpness := 0, quality_score := 1,
          brightness := 1/2, hash := [true, false] } : FrameCandidate),
       ({ t := 1, jpeg := [], sharpness := 0, quality_score := 1,
          brightness := 1/2, hash := [true, false] } : FrameCandidate),
       ({ t := 2, jpeg := [], sharpness := 0, quality_score := 1,
          brightness := 1/2, hash := [true, false] } : FrameCandidate)]
      3 0 1 (3/10)))) < ((12 : Nat) : ℚ) * (2/5) := by
    norm_num +decide [tieredFilter, brightnessInBand, sortByQuality, List.insertionSort,
      List.orderedInsert, qge, staticSample, avgPairwiseHamming, pairCount,
      pairwiseHammingSum, hamming]
  exact ⟨h3, havg, static_video_single_best _ 3 12 0 1 (3/10) h3 havg⟩

/-- C6: on the non-static path of select_diverse_topk, the result equals the
conservative trim of the greedy selection: the trim truncates to the first
max(1, count // 2) entries exactly when count / k is below 0.3 and count
exceeds 2; the greedy selection always keeps the single best-quality
candidate first, walks the quality-sorted candidates in order (its output is
a subsequence of the sorted list), accepts a candidate only when its Hamming
distance to every already accepted one is at least min_hamm (the accepted
list is pairwise min_hamm-diverse), and stops at k accepted. -/
theorem greedy_selection_spec (cands : List FrameCandidate) (k min_hamm : Nat)
    (bmin bmax thr : ℚ)
    (hns : isStaticVideo (sortByQuality (tieredFilter cands k bmin bmax thr))
      min_hamm = false) :
    select_diverse_topk cands k min_hamm bmin bmax thr =
      (if (if 0 < k then
            ((greedyChosen cands k min_hamm bmin bmax thr).length : ℚ) / (k : ℚ)
          else 0) < 3/10 ∧
          2 < (greedyChosen cands k min_hamm bmin bmax thr).length then
        (greedyChosen cands k min_hamm bmin bmax thr).take
          (max 1 ((greedyChosen cands k min_hamm bmin bmax thr).length / 2))
      else greedyChosen cands k min_hamm bmin bmax thr) ∧
    (greedyChosen cands k min_hamm bmin bmax thr).head? =
      (sortByQuality (tieredFilter cands k bmin bmax thr)).head? ∧
    List.Pairwise (fun a b => min_hamm ≤ hamming a.hash b.hash)
      (greedyChosen cands k min_hamm bmin bmax thr) ∧
    (greedyChosen cands k min_hamm bmin bmax thr).length ≤ max 1 k ∧
    (greedyChosen cands k min_hamm bmin bmax thr).Sublist
      (sortByQuality (tieredFilter cands k bmin bmax thr)) := by
  refine ⟨?_, greedyLoop_seeded_head? k min_hamm _, greedyLoop_seeded_pairwise k min_hamm _,
    greedyLoop_seeded_length k min_hamm _, greedyLoop_seeded_sublist k min_hamm _⟩
  by_cases hc : cands.isEmpty
  · have hc' : cands = [] := List.isEmpty_iff.mp hc
    subst hc'
    have hL : sortByQuality (tieredFilter [] k bmin bmax thr) = [] := by
      rw [tieredFilter_nil]
      rfl
    have hg : greedyChosen [] k min_hamm bmin bmax thr = [] := by
      unfold greedyChosen
      rw [hL]
      rfl
    rw [hg]
    simp [select_diverse_topk]
  · simp only [select_diverse_topk]
    rw [if_neg hc, if_neg (by simp [hns])]
    simp only [conservativeTrim, greedyChosen]

/-- Witness for greedy_selection_spec on two diverse candidates with k = 5:
the static check fails (only 2 survivors) and the greedy phase keeps the
best-quality frame first. -/
theorem greedy_selection_spec_witness :
    isStaticVideo (sortByQuality (tieredFilter
      [({ t := 0, jpeg := [], sharpness := 0, quality_score := 2,
          brightness := 1/2, hash := [true] } : FrameCandidate),
       ({ t := 1, jpeg := [], sharpness := 0, quality_score := 1,
          brightness := 1/2, hash := [false] } : FrameCandidate)]
      5 0 1 (3/10))) 1 = false ∧
    (greedyChosen
      [({ t := 0, jpeg := [], sharpness := 0, quality_score := 2,
          brightness := 1/2, hash := [true] } : FrameCandidate),
       ({ t := 1, jpeg := [], sharpness := 0, quality_score := 1,
          brightness := 1/2, hash := [false] } : FrameCandidate)]
      5 1 0 1 (3/10)).head? =
      (sortByQuality (tieredFilter
        [({ t := 0, jpeg := [], sharpness := 0, quality_score := 2,
            brightness := 1/2, hash := [true] } : FrameCandidate),
         ({ t := 1, jpeg := [], sharpness := 0, quality_score := 1,
            brightness := 1/2, hash := [false] } : FrameCandidate)]
        5 0 1 (3/10))).head? := by
  have hns : isStaticVideo (sortByQuality (tieredFilter
      [({ t := 0, jpeg := [], sharpness := 0, quality_score := 2,
          brightness := 1/2, hash := [true] } : FrameCandidate),
       ({ t := 1, jpeg := [], sharpness := 0, quality_score := 1,
          brightness := 1/2, hash := [false] } : FrameCandidate)]
      5 0 1 (3/10))) 1 = false := by
    norm_num +decide [isStaticVideo, tieredFilter, brightnessInBand, sortByQuality,
      List.insertionSort, List.orderedInsert, qge]
  exact ⟨hns, (greedy_selection_spec
    [({ t := 0, jpeg := [], sharpness := 0, quality_score := 2,
        brightness := 1/2, hash := [true] } : FrameCandidate),
     ({ t := 1, jpeg := [], sharpness := 0, quality_score := 1,
        brightness := 1/2, hash := [false] } : FrameCandidate)]
    5 1 0 1 (3/10) hns).2.1⟩

/-- C10: for every non-empty candidate list and every k of at least 1,
select_diverse_topk returns a non-empty result whose first element is a
candidate of maximal quality score among the candidates surviving the chosen
filter tier, on the static path, the greedy path and after the trim alike. -/
theorem select_topk_first_best (cands : List FrameCandidate) (k min_hamm : Nat)
    (bmin bmax thr : ℚ) (hc : cands ≠ []) (hk : 1 ≤ k) :
    select_diverse_topk cands k min_hamm bmin bmax thr ≠ [] ∧
    ∀ b, (select_diverse_topk cands k min_hamm bmin bmax thr).head? = some b →
      b ∈ tieredFilter cands k bmin bmax thr ∧
      ∀ c ∈ tieredFilter cands k bmin bmax thr, c.quality_score ≤ b.quality_score := by
  have hqf := @tieredFilter_ne_nil cands k bmin bmax thr hc hk
  have hsne := sortByQuality_ne_nil hqf
  have hhead := @select_head?_eq cands k min_hamm bmin bmax thr hc
  obtain ⟨b, hb⟩ : ∃ b, (sortByQuality (tieredFilter cands k bmin bmax thr)).head? = some b := by
    cases hL : sortByQuality (tieredFilter cands k bmin bmax thr) with
    | nil => exact absurd hL hsne
    | cons a tl => exact ⟨a, rfl⟩
  constructor
  · intro hnil
    rw [hnil] at hhead
    rw [hb] at hhead
    exact Option.noConfusion hhead
  · intro b' hb'
    rw [hhead, hb] at hb'
    have hbb : b' = b := (Option.some.inj hb').symm
    subst hbb
    have hmem : b' ∈ sortByQuality (tieredFilter cands k bmin bmax thr) := by
      cases hL : sortByQuality (tieredFilter cands k bmin bmax thr) with
      | nil => exact absurd hL hsne
      | cons a tl =>
        rw [hL] at hb
        have hab : a = b' := by simpa using hb
        rw [← hab]
        exact List.mem_cons_self _ _
    constructor
    · exact (sortByQuality_perm _).mem_iff.mp hmem
    · intro c hcqf
      have hcs : c ∈ sortByQuality (tieredFilter cands k bmin bmax thr) :=
        (sortByQuality_perm _).mem_iff.mpr hcqf
      exact sorted_head_quality_max (sortByQuality_sorted _) hb c hcs

/-- Witness for select_topk_first_best at a single candidate and k = 1. -/
theorem select_topk_first_best_witness :
    ([({ t := 0, jpeg := [], sharpness := 0, quality_score := 1,
         brightness := 1/2, hash := [true, true] } : FrameCandidate)] ≠
      ([] : List FrameCandidate) ∧ 1 ≤ 1) ∧
    select_diverse_topk
      [({ t := 0, jpeg := [], sharpness := 0, quality_score := 1,
          brightness := 1/2, hash := [true, true] } : FrameCandidate)]
      1 12 0 1 (3/10) ≠ [] :=
  ⟨⟨by simp, by norm_num⟩,
   (select_topk_first_best
     [({ t := 0, jpeg := [], sharpness := 0, quality_score := 1,
         brightness := 1/2, hash := [true, true] } : FrameCandidate)]
     1 12 0 1 (3/10) (by simp) (by norm_num)).1⟩
